import Mathlib

/-!
Verification of the per-room real-time whiteboard synchronization actor
(`worker/room.js`) and its reconnection client (`src/websocket.js`,
`src/canvas.js`), as a shallow embedding in Lean 4.

Actions are JSON objects with a `type` string tag; the server attaches a
`userId`. The serialized size of the client-supplied action is abstracted
as a `payloadSize : Nat` field standing for `JSON.stringify(data.action).length`.
-/

namespace Scribe

/-- An action as stored in `this.drawings` (and as sent by a client, in
which case `userId` is whatever the client supplied and is untrusted). -/
structure Action where
  type : String
  userId : String
  payloadSize : Nat
  deriving DecidableEq, Repr

/-- The valid draw-action kind tags (`validDrawTypes` in `room.js`). -/
def validDrawTypes : List String := ["start", "draw", "end", "shape", "text", "image"]

/-- Kinds persisted immediately in the `draw` handler
(`action.type === 'image' || ... 'end' || ... 'shape' || ... 'text'`). -/
def isHighValue (a : Action) : Bool :=
  a.type == "image" || a.type == "end" || a.type == "shape" || a.type == "text"

/-- Low-value kinds, i.e. in-progress freehand stroke entries. -/
def lowValue (a : Action) : Bool :=
  a.type == "start" || a.type == "draw"

/-- State owned by a Room durable object: the in-memory log, the persisted
snapshot (`none` models absence of the storage key, e.g. after `deleteAll`),
and the connected session ids. -/
structure RoomState where
  drawings : List Action
  storage : Option (List Action)
  sessions : List String
  deriving DecidableEq, Repr

/-- The persisted snapshot read back as a log: absence of the key is
equivalent to an empty log. -/
def persistedLog (st : RoomState) : List Action := st.storage.getD []

/-- Room constructor: load any persisted log before accepting participants. -/
def roomInit (stored : Option (List Action)) : RoomState :=
  { drawings := stored.getD [], storage := stored, sessions := [] }

/-- Destination of a server-side send. -/
inductive Recipient where
  | toSender
  | exceptSender
  | allSessions
  deriving DecidableEq, Repr

/-- Server-to-client messages. -/
inductive ServerMsg where
  | loadState (drawings : List Action) (userCount : Nat)
  | draw (action : Action)
  | cursorMove (userId : String) (x y : Int)
  | userCount (count : Nat)
  | reloadState (drawings : List Action)
  | clearMsg
  | error (message : String)
  deriving DecidableEq, Repr

/-- One send performed while handling a message. -/
structure Emit where
  dest : Recipient
  msg : ServerMsg
  deriving DecidableEq, Repr

/-- Client-to-server messages. -/
inductive ClientMsg where
  | draw (action : Action)
  | cursorMove (x y : Int)
  | undo
  | clear
  | unknown (type : String)
  deriving DecidableEq, Repr

/-- The `case 'draw'` branch: validate kind, reject oversized payloads with
a private error, otherwise attach the session id as `userId`, append,
persist on high-value kinds or every 10th length, and broadcast-except. -/
def handleDraw (st : RoomState) (sessionId : String) (a : Action) :
    RoomState × List Emit :=
  if validDrawTypes.contains a.type = true then
    if a.payloadSize > 900 * 1024 then
      (st, [⟨.toSender, .error "Draw action too large to sync"⟩])
    else
      let action : Action := { a with userId := sessionId }
      let drawings := st.drawings ++ [action]
      let storage :=
        if isHighValue action = true ∨ drawings.length % 10 = 0 then some drawings
        else st.storage
      ({ st with drawings := drawings, storage := storage },
       [⟨.exceptSender, .draw action⟩])
  else (st, [])

/-- `splice(i, count)` restricted to deletion: drop `count` entries at `i`. -/
def spliceRemove (l : List Action) (i count : Nat) : List Action :=
  l.take i ++ l.drop (i + count)

/-- Backward scan `for (i = n-1; i >= 0; i--)` stopping at the first index
whose entry satisfies `p`. -/
def scanBack (l : List Action) (p : Action → Bool) : Nat → Option Nat
  | 0 => none
  | n + 1 => if (l[n]?).any p = true then some n else scanBack l p n

/-- An entry at which the undo loop breaks: owned by the requester and of a
kind that is a removal target (`end`, or an atomic `shape`/`text`/`image`).
Owned `start`/`draw` entries are skipped by the loop. -/
def isTarget (sid : String) (a : Action) : Bool :=
  a.userId == sid &&
    (a.type == "end" || a.type == "shape" || a.type == "text" || a.type == "image")

/-- A `start` entry owned by the requester (the inner loop's match). -/
def isOwnedStart (sid : String) (a : Action) : Bool :=
  a.userId == sid && a.type == "start"

/-- The index where the outer undo loop breaks, if any. -/
def undoTargetIdx (l : List Action) (sid : String) : Option Nat :=
  scanBack l (isTarget sid) l.length

/-- The log mutation of the `case 'undo'` branch: `none` when nothing was
removed. Mirrors the two loops and splices of `room.js`. -/
def undoScan (l : List Action) (sid : String) : Option (List Action) :=
  match undoTargetIdx l sid with
  | none => none
  | some i =>
    if (l[i]?).any (fun a => a.type == "end") = true then
      let l1 := spliceRemove l i 1
      match scanBack l1 (isOwnedStart sid) i with
      | some j => some (spliceRemove l1 j (i - j))
      | none => some l1
    else
      some (spliceRemove l i 1)

/-- The `case 'undo'` branch: on an effective removal, persist immediately
and broadcast `reload-state` to all sessions; otherwise do nothing. -/
def handleUndo (st : RoomState) (sessionId : String) : RoomState × List Emit :=
  if st.drawings.length > 0 then
    match undoScan st.drawings sessionId with
    | some l1 =>
      ({ st with drawings := l1, storage := some l1 },
       [⟨.allSessions, .reloadState l1⟩])
    | none => (st, [])
  else (st, [])

/-- The `case 'clear'` branch: empty the log, persist, broadcast `clear`. -/
def handleClear (st : RoomState) : RoomState × List Emit :=
  ({ st with drawings := [], storage := some [] }, [⟨.allSessions, .clearMsg⟩])

/-- `webSocketMessage` dispatch. Unknown `type` values are ignored. -/
def webSocketMessage (st : RoomState) (sessionId : String) (m : ClientMsg) :
    RoomState × List Emit :=
  match m with
  | .draw a => handleDraw st sessionId a
  | .cursorMove x y =>
    (st, [⟨.exceptSender, .cursorMove sessionId x y⟩])
  | .undo => handleUndo st sessionId
  | .clear => handleClear st
  | .unknown _ => (st, [])

/-- `fetch` on a WebSocket upgrade: register the session, send the current
log privately as `load-state`, and notify the others of the new count. -/
def handleJoin (st : RoomState) (sessionId : String) : RoomState × List Emit :=
  let sessions := st.sessions ++ [sessionId]
  ({ st with sessions := sessions },
   [⟨.toSender, .loadState st.drawings sessions.length⟩,
    ⟨.exceptSender, .userCount sessions.length⟩])

/-- `webSocketClose`: drop the session, notify survivors of the new count,
and when the room empties, `deleteAll()` the storage and clear the log. -/
def webSocketClose (st : RoomState) (sessionId : String) :
    RoomState × List Emit :=
  let sessions := st.sessions.filter (fun s => s ≠ sessionId)
  let notify : List Emit := [⟨.allSessions, .userCount sessions.length⟩]
  if sessions.length = 0 then
    ({ drawings := [], storage := none, sessions := sessions }, notify)
  else
    ({ st with sessions := sessions }, notify)

/-- A room-level operation: an inbound message, a join, or a disconnect. -/
inductive RoomOp where
  | msg (sessionId : String) (m : ClientMsg)
  | join (sessionId : String)
  | close (sessionId : String)
  deriving DecidableEq, Repr

/-- Run one operation, keeping only the state. -/
def execOp (st : RoomState) : RoomOp → RoomState
  | .msg sid m => (webSocketMessage st sid m).1
  | .join sid => (handleJoin st sid).1
  | .close sid => (webSocketClose st sid).1

/-- Run a sequence of operations. -/
def execOps : RoomState → List RoomOp → RoomState
  | st, [] => st
  | st, op :: ops => execOps (execOp st op) ops

/-- The actions an operation appends to the log (admission depends only on
the action: a valid kind and a serialized size within the ceiling). -/
def appendedBy : RoomOp → List Action
  | .msg sid (.draw a) =>
    if validDrawTypes.contains a.type = true ∧ a.payloadSize ≤ 900 * 1024 then
      [{ a with userId := sid }]
    else []
  | _ => []

/-- All actions accepted across a sequence of operations, in append order. -/
def acceptedActions : List RoomOp → List Action
  | [] => []
  | op :: ops => appendedBy op ++ acceptedActions ops

/-! ## Client side: canvas replay and the reconnection state machine -/

/-- Client canvas state: the local replay buffer (`drawingActions`) and the
set of user ids holding an active freehand path (`remoteUserPaths` keys). -/
structure Canvas where
  drawingActions : List Action
  activePaths : List String
  deriving DecidableEq, Repr

/-- `canvas.clear()`: repaint the background and empty the replay buffer
(the per-user path map is untouched). -/
def clearCanvas (c : Canvas) : Canvas := { c with drawingActions := [] }

/-- `drawRemote`: render one action and record it in the replay buffer.
Every action is recorded, including `draw` entries with no active path and
images (recorded after their asynchronous decode resolves). -/
def drawRemote (c : Canvas) (a : Action) : Canvas :=
  if a.type == "start" then
    { drawingActions := c.drawingActions ++ [a],
      activePaths := a.userId :: c.activePaths.filter (fun u => u ≠ a.userId) }
  else if a.type == "end" then
    { drawingActions := c.drawingActions ++ [a],
      activePaths := c.activePaths.filter (fun u => u ≠ a.userId) }
  else
    { c with drawingActions := c.drawingActions ++ [a] }

/-- `reloadFromState`: clear, then replay the received log strictly in
order, each action awaited to completion before the next starts. -/
def reloadFromState (c : Canvas) (drawings : List Action) : Canvas :=
  drawings.foldl drawRemote (clearCanvas c)

/-- The `case 'load-state'` branch of `handleMessage`: the replay runs only
when the received `drawings` array is nonempty. -/
def clientLoadState (c : Canvas) (drawings : List Action) : Canvas :=
  if drawings.length > 0 then reloadFromState c drawings else c

/-- Connection status reported through `onConnectionChange`. -/
inductive ConnStatus where
  | connecting
  | connected
  | disconnected
  deriving DecidableEq, Repr

/-- Reconnection client state: the attempt counter, the base delay
(`reconnectDelay`, 1000 ms), the status, and the delay of a scheduled
retry timer when one is pending. -/
structure WSClient where
  reconnectAttempts : Nat
  reconnectDelay : Nat
  status : ConnStatus
  pendingRetry : Option Nat
  deriving DecidableEq, Repr

/-- `attemptReconnect`: below the budget of 5, increment the counter,
report `connecting`, and schedule a retry after `reconnectDelay *
reconnectAttempts`; at the budget, do nothing. -/
def attemptReconnect (c : WSClient) : WSClient :=
  if c.reconnectAttempts < 5 then
    { c with
      reconnectAttempts := c.reconnectAttempts + 1,
      status := .connecting,
      pendingRetry := some (c.reconnectDelay * (c.reconnectAttempts + 1)) }
  else c

/-- `ws.onopen`: reset the attempt counter, report `connected`; the fired
timer is spent, so no retry is pending. -/
def onOpen (c : WSClient) : WSClient :=
  { c with reconnectAttempts := 0, status := .connected, pendingRetry := none }

/-- `ws.onclose`: report `disconnected`, then try to reconnect. The firing
of the close event consumes any previously scheduled timer state. -/
def onClose (c : WSClient) : WSClient :=
  attemptReconnect { c with status := .disconnected, pendingRetry := none }

/-- A fresh client: constructor sets the counter to 0 and calls `connect`. -/
def wsInit (baseDelay : Nat) : WSClient :=
  { reconnectAttempts := 0, reconnectDelay := baseDelay,
    status := .connecting, pendingRetry := none }

/-! ## Lemmas about the backward scan and splices -/

theorem scanBack_eq_some (l : List Action) (p : Action → Bool) :
    ∀ n i, scanBack l p n = some i →
      i < n ∧ (l[i]?).any p = true ∧ ∀ k, i < k → k < n → (l[k]?).any p = false := by
  intro n
  induction n with
  | zero => intro i h; exact absurd h (by simp [scanBack])
  | succ n ih =>
    intro i h
    rw [scanBack] at h
    split at h
    · next hp =>
      cases h
      exact ⟨Nat.lt_succ_self _, hp, fun k hk1 hk2 => absurd hk2 (by omega)⟩
    · next hp =>
      obtain ⟨h1, h2, h3⟩ := ih i h
      refine ⟨by omega, h2, fun k hk1 hk2 => ?_⟩
      rcases Nat.lt_or_ge k n with hk | hk
      · exact h3 k hk1 hk
      · have hkn : k = n := by omega
        subst hkn
        simpa using hp

theorem scanBack_eq_none (l : List Action) (p : Action → Bool) :
    ∀ n, scanBack l p n = none ↔ ∀ k, k < n → (l[k]?).any p = false := by
  intro n
  induction n with
  | zero => simp [scanBack]
  | succ n ih =>
    rw [scanBack]
    constructor
    · intro h
      split at h
      · exact absurd h (by simp)
      · next hp =>
        intro k hk
        rcases Nat.lt_or_ge k n with hk2 | hk2
        · exact (ih.1 h) k hk2
        · have hkn : k = n := by omega
          subst hkn
          simpa using hp
    · intro h
      rw [if_neg (by simp [h n (Nat.lt_succ_self n)])]
      exact ih.2 (fun k hk => h k (by omega))

theorem scanBack_eq_some_of (l : List Action) (p : Action → Bool) :
    ∀ n i, i < n → (l[i]?).any p = true →
      (∀ k, i < k → k < n → (l[k]?).any p = false) →
      scanBack l p n = some i := by
  intro n
  induction n with
  | zero => intro i h1; omega
  | succ n ih =>
    intro i h1 h2 h3
    rw [scanBack]
    rcases Nat.lt_or_ge i n with hin | hin
    · rw [if_neg (by simp [h3 n hin (Nat.lt_succ_self n)])]
      exact ih i hin h2 (fun k hk1 hk2 => h3 k hk1 (by omega))
    · have hi : i = n := by omega
      subst hi
      rw [if_pos h2]

theorem scanBack_congr (l1 l2 : List Action) (p : Action → Bool) :
    ∀ n, (∀ k, k < n → l1[k]? = l2[k]?) →
      scanBack l1 p n = scanBack l2 p n := by
  intro n
  induction n with
  | zero => intro _; rfl
  | succ n ih =>
    intro h
    rw [scanBack, scanBack, h n (Nat.lt_succ_self n), ih (fun k hk => h k (by omega))]

theorem spliceRemove_getElem_lt (l : List Action) (i c m : Nat) (h : m < i) :
    (spliceRemove l i c)[m]? = l[m]? := by
  unfold spliceRemove
  by_cases hm : m < l.length
  · rw [List.getElem?_append_left (by rw [List.length_take]; omega)]
    exact List.getElem?_take_of_lt h
  · have h1 : l.length ≤ m := by omega
    have h2 : (l.take i ++ l.drop (i + c)).length ≤ m := by
      rw [List.length_append, List.length_take, List.length_drop]; omega
    rw [List.getElem?_eq_none h2, List.getElem?_eq_none h1]

theorem spliceRemove_sublist (l : List Action) (i c : Nat) :
    (spliceRemove l i c).Sublist l := by
  have h1 : (l.drop (i + c)).Sublist (l.drop i) := by
    rw [← List.drop_drop]
    exact List.drop_sublist _ _
  have h2 : (l.take i ++ l.drop (i + c)).Sublist (l.take i ++ l.drop i) :=
    List.Sublist.append_left h1 _
  rw [List.take_append_drop] at h2
  exact h2

theorem spliceRemove_take (l : List Action) (i j : Nat) (hj : j ≤ i)
    (hi : i ≤ l.length) : (spliceRemove l i 1).take j = l.take j := by
  unfold spliceRemove
  rw [List.take_append_of_le_length (by rw [List.length_take]; omega),
    List.take_take, Nat.min_eq_left hj]

theorem spliceRemove_drop (l : List Action) (i : Nat) (hi : i ≤ l.length) :
    (spliceRemove l i 1).drop i = l.drop (i + 1) := by
  unfold spliceRemove
  rw [List.drop_append_of_le_length (by rw [List.length_take]; omega)]
  rw [List.drop_eq_nil_iff.mpr (by rw [List.length_take]; omega), List.nil_append]

theorem take_drop_sublist (l : List Action) (a b : Nat) (h : a ≤ b) :
    (l.take a ++ l.drop b).Sublist l := by
  have hs := spliceRemove_sublist l a (b - a)
  unfold spliceRemove at hs
  rwa [Nat.add_sub_cancel' h] at hs

/-! ## Characterization of the undo scan -/

theorem undoScan_atomic (l : List Action) (sid : String) (i : Nat)
    (hi : undoTargetIdx l sid = some i)
    (hne : (l[i]?).any (fun a => a.type == "end") = false) :
    undoScan l sid = some (l.take i ++ l.drop (i + 1)) := by
  rw [undoScan, hi]
  simp only [hne, Bool.false_eq_true, if_false, spliceRemove]

theorem undoScan_end (l : List Action) (sid : String) (i : Nat)
    (hi : undoTargetIdx l sid = some i)
    (he : (l[i]?).any (fun a => a.type == "end") = true) :
    undoScan l sid =
      some (match scanBack l (isOwnedStart sid) i with
            | some j => l.take j ++ l.drop (i + 1)
            | none => l.take i ++ l.drop (i + 1)) := by
  have hlen : i < l.length := (scanBack_eq_some l _ _ _ hi).1
  have hcongr : scanBack (spliceRemove l i 1) (isOwnedStart sid) i
      = scanBack l (isOwnedStart sid) i :=
    scanBack_congr _ _ _ i (fun k hk => spliceRemove_getElem_lt l i 1 k hk)
  rw [undoScan, hi]
  simp only [he, if_true, hcongr]
  cases hs : scanBack l (isOwnedStart sid) i with
  | none => simp [spliceRemove]
  | some j =>
    have hj : j < i := (scanBack_eq_some l _ _ _ hs).1
    have hval : spliceRemove (spliceRemove l i 1) j (i - j)
        = l.take j ++ l.drop (i + 1) := by
      show (spliceRemove l i 1).take j ++ (spliceRemove l i 1).drop (j + (i - j))
          = l.take j ++ l.drop (i + 1)
      rw [Nat.add_sub_cancel' (le_of_lt hj),
        spliceRemove_take l i j (le_of_lt hj) (le_of_lt hlen),
        spliceRemove_drop l i (le_of_lt hlen)]
    simp [hval]

theorem undoScan_sublist (l : List Action) (sid : String) (l1 : List Action)
    (h : undoScan l sid = some l1) : l1.Sublist l := by
  cases hi : undoTargetIdx l sid with
  | none => rw [undoScan, hi] at h; exact absurd h (by simp)
  | some i =>
    have hlen : i < l.length := (scanBack_eq_some l _ _ _ hi).1
    by_cases he : (l[i]?).any (fun a => a.type == "end") = true
    · rw [undoScan_end l sid i hi he] at h
      cases hs : scanBack l (isOwnedStart sid) i with
      | none =>
        simp only [hs] at h
        cases h
        exact take_drop_sublist l i (i + 1) (by omega)
      | some j =>
        have hj : j < i := (scanBack_eq_some l _ _ _ hs).1
        simp only [hs] at h
        cases h
        exact take_drop_sublist l j (i + 1) (by omega)
    · rw [undoScan_atomic l sid i hi (by simpa using he)] at h
      cases h
      exact take_drop_sublist l i (i + 1) (by omega)

theorem undoScan_none_of_unowned (l : List Action) (sid : String)
    (h : ∀ a, a ∈ l → a.userId ≠ sid) : undoScan l sid = none := by
  have htgt : undoTargetIdx l sid = none := by
    rw [undoTargetIdx, scanBack_eq_none]
    intro k _
    cases hk : l[k]? with
    | none => rfl
    | some a =>
      have hmem : a ∈ l := List.getElem?_mem hk
      have : (a.userId == sid) = false := beq_eq_false_iff_ne.mpr (h a hmem)
      simp [isTarget, this]
  rw [undoScan, htgt]

theorem handleUndo_some (st : RoomState) (sid : String) (l1 : List Action)
    (h : undoScan st.drawings sid = some l1) :
    handleUndo st sid =
      ({ st with drawings := l1, storage := some l1 },
       [⟨.allSessions, .reloadState l1⟩]) := by
  have hlen : st.drawings.length > 0 := by
    cases hi : undoTargetIdx st.drawings sid with
    | none => rw [undoScan, hi] at h; exact absurd h (by simp)
    | some i =>
      have := (scanBack_eq_some st.drawings _ _ _ hi).1
      omega
  rw [handleUndo, if_pos hlen, h]

theorem handleUndo_none (st : RoomState) (sid : String)
    (h : undoScan st.drawings sid = none) : handleUndo st sid = (st, []) := by
  rw [handleUndo]
  split
  · rw [h]
  · rfl

theorem isOwnedStart_eq_true_iff (sid : String) (a : Action) :
    isOwnedStart sid a = true ↔ a.userId = sid ∧ a.type = "start" := by
  simp [isOwnedStart]

theorem isTarget_eq_true_iff (sid : String) (a : Action) :
    isTarget sid a = true ↔ a.userId = sid ∧
      (a.type = "end" ∨ a.type = "shape" ∨ a.type = "text" ∨ a.type = "image") := by
  simp [isTarget]
  tauto

/-- A log where user A has a complete stroke with user B's shape
interleaved inside it. -/
def demoInterleaved : List Action :=
  [⟨"start", "A", 1⟩, ⟨"shape", "B", 1⟩, ⟨"end", "A", 1⟩]

/-- A log where user A has a complete stroke followed by a shape. -/
def demoStrokeShape : List Action :=
  [⟨"start", "A", 1⟩, ⟨"draw", "A", 1⟩, ⟨"end", "A", 1⟩, ⟨"shape", "A", 1⟩]

/-- A log consisting of one complete stroke by user A. -/
def demoStroke : List Action :=
  [⟨"start", "A", 1⟩, ⟨"draw", "A", 1⟩, ⟨"end", "A", 1⟩]

/-- A log with B's shape followed by a bare `end` of user A. -/
def demoBareEnd : List Action :=
  [⟨"shape", "B", 1⟩, ⟨"end", "A", 1⟩]

/-! ## Claim theorems: the undo algorithm (C1, C2, C10) -/

/-- C2: undo scans the log backward from the tail skipping actions not
owned by the requester; the chosen target always belongs to the requester
and is never an owned `start`/`draw` entry; an atomic target (`shape`,
`text`, `image`) is removed as exactly that single entry; an `end` target
together with the nearest earlier `start` owned by the same session and
every entry between the two positions inclusive is removed; if no action
owned by the requester exists, undo is a no-op removing nothing. -/
theorem C2_undo_algorithm (l : List Action) (sid : String)
    (stor : Option (List Action)) (sess : List String) :
    ((∀ a, a ∈ l → a.userId ≠ sid) →
      handleUndo ⟨l, stor, sess⟩ sid = (⟨l, stor, sess⟩, []))
    ∧
    (∀ i a, undoTargetIdx l sid = some i → l[i]? = some a →
      a.userId = sid
      ∧ (a.type = "end" ∨ a.type = "shape" ∨ a.type = "text" ∨ a.type = "image")
      ∧ ∀ k b, i < k → l[k]? = some b → b.userId = sid →
          ¬ (b.type = "end" ∨ b.type = "shape" ∨ b.type = "text" ∨ b.type = "image"))
    ∧
    (∀ i a, undoTargetIdx l sid = some i → l[i]? = some a →
      (a.type = "shape" ∨ a.type = "text" ∨ a.type = "image") →
      undoScan l sid = some (l.take i ++ l.drop (i + 1)))
    ∧
    (∀ i a j b, undoTargetIdx l sid = some i → l[i]? = some a → a.type = "end" →
      j < i → l[j]? = some b → b.userId = sid → b.type = "start" →
      (∀ k c, j < k → k < i → l[k]? = some c →
        ¬ (c.userId = sid ∧ c.type = "start")) →
      undoScan l sid = some (l.take j ++ l.drop (i + 1))) := by
  refine ⟨?_, ?_, ?_, ?_⟩
  · intro h
    exact handleUndo_none _ _ (undoScan_none_of_unowned l sid h)
  · intro i a hi ha
    obtain ⟨hlt, hany, hmax⟩ := scanBack_eq_some l _ _ _ hi
    rw [ha] at hany
    simp only [Option.any_some] at hany
    obtain ⟨h1, h2⟩ := (isTarget_eq_true_iff sid a).1 hany
    refine ⟨h1, h2, ?_⟩
    intro k b hk hb hbown hbtype
    have hklen : k < l.length := by
      by_contra hc
      rw [List.getElem?_eq_none (by omega)] at hb
      exact absurd hb (by simp)
    have hfalse := hmax k hk hklen
    rw [hb] at hfalse
    simp only [Option.any_some] at hfalse
    have htrue := (isTarget_eq_true_iff sid b).2 ⟨hbown, hbtype⟩
    rw [htrue] at hfalse
    exact absurd hfalse (by simp)
  · intro i a hi ha htype
    apply undoScan_atomic l sid i hi
    rw [ha]
    simp only [Option.any_some]
    rcases htype with h | h | h <;> rw [h] <;> decide
  · intro i a j b hi ha hend hji hb hbown hbtype hnear
    have hscan : scanBack l (isOwnedStart sid) i = some j := by
      apply scanBack_eq_some_of
      · exact hji
      · rw [hb]
        simp only [Option.any_some]
        exact (isOwnedStart_eq_true_iff sid b).2 ⟨hbown, hbtype⟩
      · intro k hk1 hk2
        cases hc : l[k]? with
        | none => rfl
        | some c =>
          simp only [Option.any_some]
          by_contra hcc
          rw [Bool.not_eq_false] at hcc
          exact hnear k c hk1 hk2 hc ((isOwnedStart_eq_true_iff sid c).1 hcc)
    have he : (l[i]?).any (fun x => x.type == "end") = true := by
      rw [ha]
      simp only [Option.any_some]
      rw [hend]
      decide
    rw [undoScan_end l sid i hi he, hscan]

/-- Witness for C2: the three behaviors at concrete logs — a no-op for a
requester owning nothing, an atomic removal, and a whole-stroke removal. -/
theorem C2_undo_algorithm_witness :
    handleUndo ⟨[⟨"shape", "B", 1⟩], none, []⟩ "A" = (⟨[⟨"shape", "B", 1⟩], none, []⟩, [])
    ∧ undoScan demoStrokeShape "A"
        = some [⟨"start", "A", 1⟩, ⟨"draw", "A", 1⟩, ⟨"end", "A", 1⟩]
    ∧ undoScan demoStroke "A" = some [] := by
  refine ⟨?_, ?_, ?_⟩
  · exact (C2_undo_algorithm [⟨"shape", "B", 1⟩] "A" none []).1 (by decide)
  · have h := (C2_undo_algorithm demoStrokeShape "A" none []).2.2.1 3 ⟨"shape", "A", 1⟩
      (by decide) (by decide) (by decide)
    rw [h]
    decide
  · have h := (C2_undo_algorithm demoStroke "A" none []).2.2.2 2 ⟨"end", "A", 1⟩ 0
      ⟨"start", "A", 1⟩ (by decide) (by decide) (by decide) (by decide) (by decide)
      (by decide) (by decide)
      (by
        intro k c h1 h2 hc
        interval_cases k
        · simp only [demoStroke] at hc
          simp at hc
          subst hc
          decide)
    rw [h]
    decide

/-- C1 (as stated) is false: in the log `[start(A), shape(B), end(A)]` an
undo issued by session A removes the whole splice range, including the
interleaved shape owned by session B. -/
theorem C1_counterexample :
    undoScan demoInterleaved "A" = some []
    ∧ (⟨"shape", "B", 1⟩ : Action) ∈ demoInterleaved
    ∧ (⟨"shape", "B", 1⟩ : Action).userId = "B"
    ∧ "B" ≠ "A"
    ∧ (⟨"shape", "B", 1⟩ : Action) ∉ ([] : List Action) := by decide

/-- C1 (amended): whatever undo removes is one contiguous range of the log
whose first and last entries are owned by the requesting session; an entry
owned by another session is removed only when it lies strictly between the
requester's `start` and `end` of the stroke being removed (a single-entry
removal always removes an entry owned by the requester). -/
theorem C1_amended_undo_isolation (l : List Action) (sid : String)
    (l1 : List Action) (h : undoScan l sid = some l1) :
    ∃ s e, s ≤ e ∧ e < l.length ∧ l1 = l.take s ++ l.drop (e + 1)
      ∧ (∃ a, l[s]? = some a ∧ a.userId = sid)
      ∧ (∃ a, l[e]? = some a ∧ a.userId = sid)
      ∧ (s < e →
          (∃ a, l[s]? = some a ∧ a.userId = sid ∧ a.type = "start")
          ∧ (∃ a, l[e]? = some a ∧ a.userId = sid ∧ a.type = "end")) := by
  cases hi : undoTargetIdx l sid with
  | none => rw [undoScan, hi] at h; exact absurd h (by simp)
  | some i =>
    obtain ⟨hlen, hany, _⟩ := scanBack_eq_some l _ _ _ hi
    cases hoi : l[i]? with
    | none => rw [hoi] at hany; exact absurd hany (by simp)
    | some a =>
      rw [hoi] at hany
      simp only [Option.any_some] at hany
      obtain ⟨haown, _⟩ := (isTarget_eq_true_iff sid a).1 hany
      by_cases he : (l[i]?).any (fun x => x.type == "end") = true
      · rw [undoScan_end l sid i hi he] at h
        have hatype : a.type = "end" := by
          rw [hoi] at he
          simp only [Option.any_some] at he
          exact beq_iff_eq.1 he
        cases hs : scanBack l (isOwnedStart sid) i with
        | none =>
          simp only [hs] at h
          cases h
          exact ⟨i, i, le_refl i, hlen, rfl, ⟨a, hoi, haown⟩, ⟨a, hoi, haown⟩,
            fun hc => absurd hc (lt_irrefl i)⟩
        | some j =>
          obtain ⟨hji, hjany, _⟩ := scanBack_eq_some l _ _ _ hs
          cases hoj : l[j]? with
          | none => rw [hoj] at hjany; exact absurd hjany (by simp)
          | some b =>
            rw [hoj] at hjany
            simp only [Option.any_some] at hjany
            obtain ⟨hbown, hbtype⟩ := (isOwnedStart_eq_true_iff sid b).1 hjany
            simp only [hs] at h
            cases h
            exact ⟨j, i, le_of_lt hji, hlen, rfl, ⟨b, hoj, hbown⟩, ⟨a, hoi, haown⟩,
              fun _ => ⟨⟨b, hoj, hbown, hbtype⟩, ⟨a, hoi, haown, hatype⟩⟩⟩
      · rw [undoScan_atomic l sid i hi (by simpa using he)] at h
        cases h
        exact ⟨i, i, le_refl i, hlen, rfl, ⟨a, hoi, haown⟩, ⟨a, hoi, haown⟩,
          fun hc => absurd hc (lt_irrefl i)⟩

/-- Witness for the amended C1, at the interleaved log: the removed range
is `[0, 2]`, and both endpoints are owned by A. -/
theorem C1_amended_undo_isolation_witness :
    ∃ s e, s ≤ e ∧ e < demoInterleaved.length
      ∧ ([] : List Action) = demoInterleaved.take s ++ demoInterleaved.drop (e + 1)
      ∧ (∃ a, demoInterleaved[s]? = some a ∧ a.userId = "A")
      ∧ (∃ a, demoInterleaved[e]? = some a ∧ a.userId = "A")
      ∧ (s < e →
          (∃ a, demoInterleaved[s]? = some a ∧ a.userId = "A" ∧ a.type = "start")
          ∧ (∃ a, demoInterleaved[e]? = some a ∧ a.userId = "A" ∧ a.type = "end")) :=
  C1_amended_undo_isolation demoInterleaved "A" [] (by decide)

/-- C10: when the backward scan's target is an `end` entry with no earlier
`start` owned by the same session, undo removes exactly that single `end`
entry, persists the shortened log, and broadcasts `reload-state` to all
sessions. -/
theorem C10_bare_end_undo (l : List Action) (sid : String)
    (stor : Option (List Action)) (sess : List String) (i : Nat) (a : Action)
    (hi : undoTargetIdx l sid = some i) (ha : l[i]? = some a)
    (hend : a.type = "end")
    (hnostart : ∀ j b, j < i → l[j]? = some b →
      ¬ (b.userId = sid ∧ b.type = "start")) :
    handleUndo ⟨l, stor, sess⟩ sid =
      (⟨l.take i ++ l.drop (i + 1), some (l.take i ++ l.drop (i + 1)), sess⟩,
       [⟨.allSessions, .reloadState (l.take i ++ l.drop (i + 1))⟩]) := by
  have hscan : scanBack l (isOwnedStart sid) i = none := by
    rw [scanBack_eq_none]
    intro k hk
    cases hc : l[k]? with
    | none => rfl
    | some c =>
      simp only [Option.any_some]
      by_contra hcc
      rw [Bool.not_eq_false] at hcc
      exact hnostart k c hk hc ((isOwnedStart_eq_true_iff sid c).1 hcc)
  have he : (l[i]?).any (fun x => x.type == "end") = true := by
    rw [ha]
    simp only [Option.any_some]
    rw [hend]
    decide
  have hu : undoScan l sid = some (l.take i ++ l.drop (i + 1)) := by
    rw [undoScan_end l sid i hi he, hscan]
  exact handleUndo_some _ _ _ hu

/-- Witness for C10 at `[shape(B), end(A)]`: A's undo removes only the
bare `end`, persists `[shape(B)]` and broadcasts it as `reload-state`. -/
theorem C10_bare_end_undo_witness :
    handleUndo ⟨demoBareEnd, none, []⟩ "A" =
      (⟨[⟨"shape", "B", 1⟩], some [⟨"shape", "B", 1⟩], []⟩,
       [⟨.allSessions, .reloadState [⟨"shape", "B", 1⟩]⟩]) := by
  have h := C10_bare_end_undo demoBareEnd "A" none [] 1 ⟨"end", "A", 1⟩
    (by decide) (by decide) (by decide)
    (by
      intro j b hj hb
      interval_cases j
      · simp only [demoBareEnd] at hb
        simp at hb
        subst hb
        decide)
  rw [h]
  decide

/-! ## Claim theorems: draw admission (C3, C4, C8) -/

/-- C3: a draw action whose serialized form exceeds 900 KiB is never
appended and never broadcast; exactly one private `error` message is sent
to the originating session and the room state is left unmodified. -/
theorem C3_oversize_rejected (st : RoomState) (sid : String) (a : Action)
    (hv : validDrawTypes.contains a.type = true)
    (hs : a.payloadSize > 900 * 1024) :
    handleDraw st sid a =
      (st, [⟨.toSender, .error "Draw action too large to sync"⟩]) := by
  rw [handleDraw, if_pos hv, if_pos hs]

/-- Witness for C3: a 900 KiB + 1 image is rejected with one error. -/
theorem C3_oversize_rejected_witness :
    handleDraw (roomInit none) "A" ⟨"image", "A", 900 * 1024 + 1⟩ =
      (roomInit none, [⟨.toSender, .error "Draw action too large to sync"⟩]) :=
  C3_oversize_rejected (roomInit none) "A" ⟨"image", "A", 900 * 1024 + 1⟩
    (by decide) (by decide)

/-- C4: every accepted draw action is stored and broadcast with its
`userId` overwritten to the handling session's id, regardless of the
client-supplied owner value. -/
theorem C4_owner_overwritten (st : RoomState) (sid : String) (a : Action)
    (hv : validDrawTypes.contains a.type = true)
    (hs : ¬ a.payloadSize > 900 * 1024) :
    (handleDraw st sid a).1.drawings = st.drawings ++ [{ a with userId := sid }]
    ∧ (handleDraw st sid a).2 = [⟨.exceptSender, .draw { a with userId := sid }⟩]
    ∧ ({ a with userId := sid } : Action).userId = sid := by
  rw [handleDraw, if_pos hv, if_neg hs]
  exact ⟨rfl, rfl, rfl⟩

/-- Witness for C4: a client-spoofed owner "SPOOF" is replaced by the
session id "A" in both the stored and the broadcast action. -/
theorem C4_owner_overwritten_witness :
    (handleDraw (roomInit none) "A" ⟨"text", "SPOOF", 5⟩).1.drawings
      = [⟨"text", "A", 5⟩]
    ∧ (handleDraw (roomInit none) "A" ⟨"text", "SPOOF", 5⟩).2
      = [⟨.exceptSender, .draw ⟨"text", "A", 5⟩⟩] := by
  have h := C4_owner_overwritten (roomInit none) "A" ⟨"text", "SPOOF", 5⟩
    (by decide) (by decide)
  exact ⟨h.1, h.2.1⟩

/-- C8 (as stated) is false: a draw message with the unknown kind
"wiggle" is dropped without any reply at all — in particular no `error`
message reaches the originator. -/
theorem C8_counterexample :
    validDrawTypes.contains "wiggle" = false
    ∧ webSocketMessage (roomInit none) "A" (.draw ⟨"wiggle", "A", 1⟩)
        = (roomInit none, []) := by decide

/-- C8 (amended): a draw message carrying an unknown action-kind tag is
silently ignored: not appended to the log, not broadcast, and no message
of any kind — including an error message — is sent to anyone. -/
theorem C8_amended_unknown_kind_silent (st : RoomState) (sid : String)
    (a : Action) (hv : validDrawTypes.contains a.type = false) :
    webSocketMessage st sid (.draw a) = (st, []) := by
  show handleDraw st sid a = (st, [])
  rw [handleDraw, if_neg (by rw [hv]; exact Bool.false_ne_true)]

/-- Witness for the amended C8 at the unknown kind "polygon". -/
theorem C8_amended_unknown_kind_silent_witness :
    webSocketMessage (roomInit none) "B" (.draw ⟨"polygon", "B", 3⟩)
      = (roomInit none, []) :=
  C8_amended_unknown_kind_silent (roomInit none) "B" ⟨"polygon", "B", 3⟩
    (by decide)

/-! ## Claim theorem: room teardown (C6) -/

/-- C6: when the last session disconnects, the in-memory log is emptied
and the persisted snapshot is deleted; a subsequent join — to the same
live object or to a fresh object constructed from the now-empty storage —
receives `load-state` with an empty drawings array. -/
theorem C6_last_disconnect_teardown (st : RoomState) (sid newSid : String)
    (h : st.sessions = [sid]) :
    (webSocketClose st sid).1.drawings = []
    ∧ (webSocketClose st sid).1.storage = none
    ∧ (handleJoin (webSocketClose st sid).1 newSid).2
        = [⟨.toSender, .loadState [] 1⟩, ⟨.exceptSender, .userCount 1⟩]
    ∧ (roomInit (webSocketClose st sid).1.storage).drawings = [] := by
  have hclose : webSocketClose st sid
      = (⟨[], none, []⟩, [⟨.allSessions, .userCount 0⟩]) := by
    rw [webSocketClose, h]
    simp
  rw [hclose]
  exact ⟨rfl, rfl, rfl, rfl⟩

/-- Witness for C6: the single session "S1" leaves a room holding a
stroke; the log and snapshot empty and a join by "S2" gets `drawings: []`. -/
theorem C6_last_disconnect_teardown_witness :
    (webSocketClose ⟨demoStroke, some demoStroke, ["S1"]⟩ "S1").1.drawings = []
    ∧ (webSocketClose ⟨demoStroke, some demoStroke, ["S1"]⟩ "S1").1.storage = none
    ∧ (handleJoin (webSocketClose ⟨demoStroke, some demoStroke, ["S1"]⟩ "S1").1 "S2").2
        = [⟨.toSender, .loadState [] 1⟩, ⟨.exceptSender, .userCount 1⟩]
    ∧ (roomInit (webSocketClose ⟨demoStroke, some demoStroke, ["S1"]⟩ "S1").1.storage).drawings
        = [] :=
  C6_last_disconnect_teardown ⟨demoStroke, some demoStroke, ["S1"]⟩ "S1" "S2" rfl

/-! ## Persistence cadence (C5) -/

theorem handleDraw_accepted (st : RoomState) (sid : String) (a : Action)
    (hv : validDrawTypes.contains a.type = true)
    (hs : ¬ a.payloadSize > 900 * 1024) :
    handleDraw st sid a =
      ({ st with
          drawings := st.drawings ++ [{ a with userId := sid }],
          storage :=
            if isHighValue { a with userId := sid } = true
                ∨ (st.drawings ++ [{ a with userId := sid }]).length % 10 = 0
            then some (st.drawings ++ [{ a with userId := sid }])
            else st.storage },
       [⟨.exceptSender, .draw { a with userId := sid }⟩]) := by
  rw [handleDraw, if_pos hv, if_neg hs]

theorem validType_cases (t : String) (h : validDrawTypes.contains t = true) :
    t = "start" ∨ t = "draw" ∨ t = "end" ∨ t = "shape" ∨ t = "text"
      ∨ t = "image" := by
  have hmem : t ∈ validDrawTypes := by simpa [List.contains] using h
  simpa [validDrawTypes] using hmem

theorem lowValue_of_not_high (a : Action)
    (hv : validDrawTypes.contains a.type = true)
    (hh : isHighValue a = false) : lowValue a = true := by
  rcases validType_cases a.type hv with h | h | h | h | h | h <;>
    simp [isHighValue, lowValue, h] at hh ⊢

theorem isHighValue_eq_false_of_low (a : Action) (hl : lowValue a = true) :
    isHighValue a = false := by
  rcases (by simpa [lowValue] using hl : a.type = "start" ∨ a.type = "draw")
    with h | h <;> simp [isHighValue, h]

/-- The relation the persistence cadence maintains between the in-memory
log and the persisted snapshot: the snapshot is a prefix of the log, every
entry after it is low-value, and no log length reached since the last
persist point is a multiple of 10. -/
def PersistInv (st : RoomState) : Prop :=
  ∃ suffix, st.drawings = persistedLog st ++ suffix
    ∧ (∀ a, a ∈ suffix → lowValue a = true)
    ∧ ∀ m, (persistedLog st).length < m → m ≤ st.drawings.length → m % 10 ≠ 0

theorem persistInv_of_sync (st : RoomState)
    (h : persistedLog st = st.drawings) : PersistInv st := by
  refine ⟨[], by rw [h, List.append_nil], by simp, ?_⟩
  intro m h1 h2
  rw [h] at h1
  omega

theorem persistInv_execOp (st : RoomState) (op : RoomOp)
    (h : PersistInv st) : PersistInv (execOp st op) := by
  cases op with
  | msg sid m =>
    cases m with
    | draw a =>
      show PersistInv (handleDraw st sid a).1
      by_cases hv : validDrawTypes.contains a.type = true
      · by_cases hs : a.payloadSize > 900 * 1024
        · rw [handleDraw, if_pos hv, if_pos hs]
          exact h
        · rw [handleDraw_accepted st sid a hv hs]
          by_cases hp : isHighValue { a with userId := sid } = true
              ∨ (st.drawings ++ [{ a with userId := sid }]).length % 10 = 0
          · rw [if_pos hp]
            exact persistInv_of_sync _ rfl
          · rw [if_neg hp]
            push_neg at hp
            obtain ⟨hph, hpm⟩ := hp
            obtain ⟨suffix, heq, hlow, hrange⟩ := h
            refine ⟨suffix ++ [{ a with userId := sid }], ?_, ?_, ?_⟩
            · show st.drawings ++ [{ a with userId := sid }]
                = persistedLog st ++ (suffix ++ [{ a with userId := sid }])
              rw [heq, List.append_assoc]
            · intro b hb
              rcases List.mem_append.1 hb with hb | hb
              · exact hlow b hb
              · have hbe : b = { a with userId := sid } := by simpa using hb
                subst hbe
                exact lowValue_of_not_high _ (by simpa using hv)
                  (by simpa using hph)
            · intro m h1 h2
              rw [List.length_append, List.length_cons, List.length_nil] at h2
              rcases Nat.lt_or_ge st.drawings.length m with hm | hm
              · have hme : m = st.drawings.length + 1 := by omega
                subst hme
                intro hc
                apply hpm
                rw [List.length_append, List.length_cons, List.length_nil]
                exact hc
              · exact hrange m h1 hm
      · rw [handleDraw, if_neg hv]
        exact h
    | cursorMove x y => exact h
    | undo =>
      show PersistInv (handleUndo st sid).1
      cases hu : undoScan st.drawings sid with
      | none => rw [handleUndo_none st sid hu]; exact h
      | some l1 =>
        rw [handleUndo_some st sid l1 hu]
        exact persistInv_of_sync _ rfl
    | clear => exact persistInv_of_sync _ rfl
    | unknown t => exact h
  | join sid => exact h
  | close sid =>
    show PersistInv (webSocketClose st sid).1
    rw [webSocketClose]
    split
    · exact persistInv_of_sync _ rfl
    · exact h

theorem persistInv_execOps (ops : List RoomOp) :
    ∀ st : RoomState, PersistInv st → PersistInv (execOps st ops) := by
  induction ops with
  | nil => intro st h; exact h
  | cons op ops ih =>
    intro st h
    exact ih _ (persistInv_execOp st op h)

theorem persistInv_lag (st : RoomState) (h : PersistInv st) :
    ∃ suffix, st.drawings = persistedLog st ++ suffix ∧ suffix.length ≤ 9
      ∧ ∀ a, a ∈ suffix → lowValue a = true := by
  obtain ⟨suffix, heq, hlow, hrange⟩ := h
  refine ⟨suffix, heq, ?_, hlow⟩
  by_contra hc
  push_neg at hc
  have hlen : st.drawings.length = (persistedLog st).length + suffix.length := by
    rw [heq, List.length_append]
  have hm := hrange (((persistedLog st).length / 10 + 1) * 10) (by omega) (by omega)
  omega

/-- C5: an accepted append of a high-value kind (image, shape, text, end),
an effective undo, and a clear each leave the snapshot equal to the log;
an accepted low-value append (start, draw) persists exactly when the new
log length is a multiple of 10 and otherwise leaves the snapshot untouched;
consequently on every state reachable from a fresh or loaded room the
snapshot is a prefix of the log missing at most 9 actions, all low-value,
so it never lags by a high-value action. -/
theorem C5_persistence_cadence (s : Option (List Action)) (ops : List RoomOp) :
    (∃ suffix, (execOps (roomInit s) ops).drawings
        = persistedLog (execOps (roomInit s) ops) ++ suffix
      ∧ suffix.length ≤ 9 ∧ ∀ a, a ∈ suffix → lowValue a = true)
    ∧ (∀ st : RoomState, ∀ sid : String, ∀ a : Action,
        validDrawTypes.contains a.type = true → ¬ a.payloadSize > 900 * 1024 →
        isHighValue { a with userId := sid } = true →
        persistedLog (handleDraw st sid a).1 = (handleDraw st sid a).1.drawings)
    ∧ (∀ st : RoomState, ∀ sid : String, ∀ a : Action,
        validDrawTypes.contains a.type = true → ¬ a.payloadSize > 900 * 1024 →
        lowValue { a with userId := sid } = true →
        ((st.drawings ++ [{ a with userId := sid }]).length % 10 = 0 →
          persistedLog (handleDraw st sid a).1 = (handleDraw st sid a).1.drawings)
        ∧ ((st.drawings ++ [{ a with userId := sid }]).length % 10 ≠ 0 →
          (handleDraw st sid a).1.storage = st.storage))
    ∧ (∀ st : RoomState, ∀ sid : String, ∀ l1 : List Action,
        undoScan st.drawings sid = some l1 →
        persistedLog (handleUndo st sid).1 = (handleUndo st sid).1.drawings)
    ∧ (∀ st : RoomState,
        persistedLog (handleClear st).1 = (handleClear st).1.drawings) := by
  refine ⟨?_, ?_, ?_, ?_, ?_⟩
  · apply persistInv_lag
    apply persistInv_execOps
    exact persistInv_of_sync _ rfl
  · intro st sid a hv hs hh
    rw [handleDraw_accepted st sid a hv hs, if_pos (Or.inl hh)]
    rfl
  · intro st sid a hv hs hl
    constructor
    · intro hm
      rw [handleDraw_accepted st sid a hv hs, if_pos (Or.inr hm)]
      rfl
    · intro hm
      rw [handleDraw_accepted st sid a hv hs,
        if_neg (by
          rintro (hc | hc)
          · rw [isHighValue_eq_false_of_low _ hl] at hc
            exact Bool.false_ne_true hc
          · exact hm hc)]
  · intro st sid l1 hu
    rw [handleUndo_some st sid l1 hu]
    rfl
  · intro st
    rfl

/-- Witness for C5: an image append persists at once; a `draw` append to a
room holding one action does not touch the snapshot (1 + 1 = 2 is not a
multiple of 10); an effective undo persists at once. -/
theorem C5_persistence_cadence_witness :
    persistedLog (handleDraw (roomInit none) "A" ⟨"image", "A", 1⟩).1
      = (handleDraw (roomInit none) "A" ⟨"image", "A", 1⟩).1.drawings
    ∧ (handleDraw ⟨[⟨"start", "A", 1⟩], some [], []⟩ "A" ⟨"draw", "A", 1⟩).1.storage
      = some []
    ∧ persistedLog (handleUndo ⟨demoStroke, none, []⟩ "A").1
      = (handleUndo ⟨demoStroke, none, []⟩ "A").1.drawings := by
  have h := C5_persistence_cadence none []
  refine ⟨?_, ?_, ?_⟩
  · exact h.2.1 (roomInit none) "A" ⟨"image", "A", 1⟩ (by decide) (by decide)
      (by decide)
  · exact (h.2.2.1 ⟨[⟨"start", "A", 1⟩], some [], []⟩ "A" ⟨"draw", "A", 1⟩
      (by decide) (by decide) (by decide)).2 (by decide)
  · exact h.2.2.2.1 ⟨demoStroke, none, []⟩ "A" [] (by decide)

/-! ## Late-joiner replay (C7) -/

theorem drawRemote_drawingActions (c : Canvas) (a : Action) :
    (drawRemote c a).drawingActions = c.drawingActions ++ [a] := by
  unfold drawRemote
  split
  · rfl
  · split
    · rfl
    · rfl

theorem replay_drawingActions (ds : List Action) :
    ∀ c : Canvas, (ds.foldl drawRemote c).drawingActions
      = c.drawingActions ++ ds := by
  induction ds with
  | nil => intro c; simp
  | cons d ds ih =>
    intro c
    rw [List.foldl_cons, ih, drawRemote_drawingActions, List.append_assoc]
    rfl

theorem reloadFromState_drawingActions (c : Canvas) (ds : List Action) :
    (reloadFromState c ds).drawingActions = ds := by
  rw [reloadFromState, replay_drawingActions]
  rfl

theorem drawings_sublist_accepted (ops : List RoomOp) :
    ∀ st : RoomState, ∀ pre : List Action, st.drawings.Sublist pre →
      (execOps st ops).drawings.Sublist (pre ++ acceptedActions ops) := by
  induction ops with
  | nil =>
    intro st pre h
    rw [execOps, acceptedActions, List.append_nil]
    exact h
  | cons op ops ih =>
    intro st pre h
    rw [execOps, acceptedActions, ← List.append_assoc]
    apply ih
    cases op with
    | msg sid m =>
      cases m with
      | draw a =>
        show (handleDraw st sid a).1.drawings.Sublist
          (pre ++ appendedBy (.msg sid (.draw a)))
        by_cases hv : validDrawTypes.contains a.type = true
        · by_cases hs : a.payloadSize > 900 * 1024
          · rw [handleDraw, if_pos hv, if_pos hs]
            rw [appendedBy, if_neg (by rintro ⟨h1, h2⟩; omega), List.append_nil]
            exact h
          · rw [handleDraw_accepted st sid a hv hs]
            show (st.drawings ++ [{ a with userId := sid }]).Sublist
              (pre ++ appendedBy (RoomOp.msg sid (ClientMsg.draw a)))
            rw [appendedBy, if_pos (show validDrawTypes.contains a.type = true
              ∧ a.payloadSize ≤ 900 * 1024 from ⟨hv, by omega⟩)]
            exact List.Sublist.append h (List.Sublist.refl _)
        · rw [handleDraw, if_neg hv]
          rw [appendedBy, if_neg (by rintro ⟨h1, h2⟩; exact hv h1), List.append_nil]
          exact h
      | cursorMove x y =>
        show st.drawings.Sublist (pre ++ [])
        rw [List.append_nil]
        exact h
      | undo =>
        show (handleUndo st sid).1.drawings.Sublist (pre ++ [])
        rw [List.append_nil]
        cases hu : undoScan st.drawings sid with
        | none => rw [handleUndo_none st sid hu]; exact h
        | some l1 =>
          rw [handleUndo_some st sid l1 hu]
          exact (undoScan_sublist st.drawings sid l1 hu).trans h
      | clear =>
        show ([] : List Action).Sublist (pre ++ [])
        exact List.nil_sublist _
      | unknown t =>
        show st.drawings.Sublist (pre ++ [])
        rw [List.append_nil]
        exact h
    | join sid2 =>
      show st.drawings.Sublist (pre ++ [])
      rw [List.append_nil]
      exact h
    | close sid2 =>
      show (webSocketClose st sid2).1.drawings.Sublist (pre ++ [])
      rw [List.append_nil, webSocketClose]
      split
      · exact List.nil_sublist _
      · exact h

/-- C7 (as stated) is false: on a `load-state` carrying an empty drawings
array, the client keeps its locally buffered render state instead of
discarding it and replaying the (empty) received log. -/
theorem C7_counterexample :
    (clientLoadState ⟨[⟨"shape", "A", 1⟩], []⟩ []).drawingActions
      = [⟨"shape", "A", 1⟩]
    ∧ [(⟨"shape", "A", 1⟩ : Action)] ≠ ([] : List Action) := by decide

/-- C7 (amended): the log a late joiner receives in `load-state` is the
room's current log, always a subsequence — append order minus the ranges
removed by undo and clear — of all accepted actions in append order; when
the received log is nonempty the client clears its local buffer and
replays the received log strictly in order, ending with exactly that log
as its buffer; a `load-state` with an empty log leaves the canvas
unchanged (the local buffer is not discarded). -/
theorem C7_amended_replay (ops : List RoomOp) (sid : String) (c : Canvas)
    (ds : List Action) (hds : ds ≠ []) :
    (handleJoin (execOps (roomInit none) ops) sid).2
      = [⟨.toSender, .loadState (execOps (roomInit none) ops).drawings
            ((execOps (roomInit none) ops).sessions.length + 1)⟩,
         ⟨.exceptSender, .userCount
            ((execOps (roomInit none) ops).sessions.length + 1)⟩]
    ∧ (execOps (roomInit none) ops).drawings.Sublist (acceptedActions ops)
    ∧ (clientLoadState c ds).drawingActions = ds
    ∧ clientLoadState c [] = c := by
  refine ⟨?_, ?_, ?_, ?_⟩
  · rw [handleJoin]
    simp
  · have hs := drawings_sublist_accepted ops (roomInit none) []
      (by rw [roomInit]; exact List.Sublist.refl _)
    simpa using hs
  · rw [clientLoadState, if_pos (List.length_pos.2 hds)]
    exact reloadFromState_drawingActions c ds
  · rfl

/-- Witness for the amended C7: a room that saw a stroke by S1, a shape by
S2 and an undo by S1 serves `[shape(S2)]`, a subsequence of the accepted
appends; a client with a stale buffer replays `demoStroke` to exactly
`demoStroke`. -/
theorem C7_amended_replay_witness :
    (execOps (roomInit none)
        [.msg "S1" (.draw ⟨"start", "S1", 1⟩), .msg "S1" (.draw ⟨"end", "S1", 1⟩),
         .msg "S2" (.draw ⟨"shape", "S2", 1⟩), .msg "S1" .undo]).drawings.Sublist
      (acceptedActions
        [.msg "S1" (.draw ⟨"start", "S1", 1⟩), .msg "S1" (.draw ⟨"end", "S1", 1⟩),
         .msg "S2" (.draw ⟨"shape", "S2", 1⟩), .msg "S1" .undo])
    ∧ (clientLoadState ⟨[⟨"text", "B", 2⟩], []⟩ demoStroke).drawingActions
      = demoStroke := by
  have h := C7_amended_replay
    [.msg "S1" (.draw ⟨"start", "S1", 1⟩), .msg "S1" (.draw ⟨"end", "S1", 1⟩),
     .msg "S2" (.draw ⟨"shape", "S2", 1⟩), .msg "S1" .undo]
    "S3" ⟨[⟨"text", "B", 2⟩], []⟩ demoStroke (by decide)
  exact ⟨h.2.1, h.2.2.1⟩

/-! ## Reconnection client (C9) -/

theorem wsIter_le (c : WSClient) : ∀ n, n ≤ 5 →
    onClose^[n] (onOpen c) =
      { reconnectAttempts := n, reconnectDelay := c.reconnectDelay,
        status := if n = 0 then .connected else .connecting,
        pendingRetry := if n = 0 then none
          else some (c.reconnectDelay * n) } := by
  intro n
  induction n with
  | zero =>
    intro _
    rw [Function.iterate_zero_apply, onOpen]
    simp
  | succ n ih =>
    intro h
    rw [Function.iterate_succ_apply', ih (by omega)]
    simp only [onClose, attemptReconnect]
    rw [if_pos (show n < 5 by omega)]
    simp

theorem wsIter_ge6 (c : WSClient) : ∀ n, 6 ≤ n →
    onClose^[n] (onOpen c) =
      { reconnectAttempts := 5, reconnectDelay := c.reconnectDelay,
        status := .disconnected, pendingRetry := none } := by
  intro n
  induction n with
  | zero => omega
  | succ n ih =>
    intro h
    rw [Function.iterate_succ_apply']
    rcases Nat.lt_or_ge n 6 with h6 | h6
    · have hn : n = 5 := by omega
      subst hn
      rw [wsIter_le c 5 (by omega)]
      simp [onClose, attemptReconnect]
    · rw [ih h6]
      simp [onClose, attemptReconnect]

/-- C9: after a disconnection the client schedules the nth consecutive
retry with delay `reconnectDelay × n` for n = 1..5 while counting
attempts; from the 6th consecutive disconnection on it stays disconnected
with no retry scheduled and the counter capped at 5; a close at an
exhausted counter schedules nothing; a successful connect resets the
attempt counter to zero. -/
theorem C9_reconnect_budget (c : WSClient) (n : Nat) :
    ((onOpen c).reconnectAttempts = 0 ∧ (onOpen c).status = .connected)
    ∧ (1 ≤ n → n ≤ 5 →
        (onClose^[n] (onOpen c)).pendingRetry = some (c.reconnectDelay * n)
        ∧ (onClose^[n] (onOpen c)).status = .connecting
        ∧ (onClose^[n] (onOpen c)).reconnectAttempts = n)
    ∧ (6 ≤ n →
        (onClose^[n] (onOpen c)).pendingRetry = none
        ∧ (onClose^[n] (onOpen c)).status = .disconnected
        ∧ (onClose^[n] (onOpen c)).reconnectAttempts = 5)
    ∧ (5 ≤ c.reconnectAttempts →
        onClose c = { c with status := .disconnected, pendingRetry := none }) := by
  refine ⟨⟨rfl, rfl⟩, ?_, ?_, ?_⟩
  · intro h1 h5
    rw [wsIter_le c n h5]
    simp [show ¬ n = 0 by omega]
  · intro h6
    rw [wsIter_ge6 c n h6]
    exact ⟨rfl, rfl, rfl⟩
  · intro hge
    rw [onClose, attemptReconnect,
      if_neg (show ¬ c.reconnectAttempts < 5 by omega)]

/-- Witness for C9: with base delay 1000, the 3rd retry is scheduled after
3000 ms and the 6th disconnection schedules nothing and leaves the client
disconnected. -/
theorem C9_reconnect_budget_witness :
    (onClose^[3] (onOpen (wsInit 1000))).pendingRetry = some 3000
    ∧ (onClose^[6] (onOpen (wsInit 1000))).pendingRetry = none
    ∧ (onClose^[6] (onOpen (wsInit 1000))).status = .disconnected := by
  have h3 := (C9_reconnect_budget (wsInit 1000) 3).2.1 (by decide) (by decide)
  have h6 := (C9_reconnect_budget (wsInit 1000) 6).2.2.1 (by decide)
  exact ⟨h3.1, h6.1, h6.2.1⟩

end Scribe
